import Mathlib

/-!
Verification of the patch/restore engine and command layer of the
ST-patcher-LSP-intelephense plugin.  The command layer is translated from
`src/plugin/commands.py`.  The patcher engine (`plugin/patcher.py`) is not
part of the provided sources — only its callers are — so the engine is
modelled from the design specification (signature catalog, integrity
scanner, patch engine, state inspector, restore engine) and the command
layer is verified against that model.

Byte buffers are `List Nat`, file-system directories are association lists
from names to file contents, and every write is modelled as an atomic
replacement (the write-temp-then-rename discipline of the spec collapses
to one atomic state transition in this embedding).
-/

/-- Modelled from the spec (§4.3 step 4, missing `plugin/patcher.py`):
replace all occurrences of the search pattern `s` by `r` in a buffer,
counting the occurrences.  Scanning is left-to-right and non-overlapping.
The `fuel` argument makes the recursion structural; it is always called
with `fuel` at least the buffer length, so the fuel-exhausted branch is
never reached. -/
def replaceAllF (s r : List Nat) : Nat → List Nat → List Nat × Nat
  | _, [] => ([], 0)
  | 0, buf => (buf, 0)
  | Nat.succ fuel, b :: rest =>
    if s ≠ [] ∧ (b :: rest).take s.length = s then
      let p := replaceAllF s r fuel ((b :: rest).drop s.length)
      (r ++ p.1, p.2 + 1)
    else
      let p := replaceAllF s r fuel rest
      (b :: p.1, p.2)

/-- Modelled from the spec: wrapper of `replaceAllF` with sufficient fuel. -/
def replaceAll (s r buf : List Nat) : List Nat × Nat :=
  replaceAllF s r buf.length buf

/-- Modelled from the spec: count the left-to-right non-overlapping
occurrences of the pattern `s` in a buffer (used to state occurrence
accounting and the no-pattern-left postcondition). -/
def countOccsF (s : List Nat) : Nat → List Nat → Nat
  | _, [] => 0
  | 0, _ => 0
  | Nat.succ fuel, b :: rest =>
    if s ≠ [] ∧ (b :: rest).take s.length = s then
      countOccsF s fuel ((b :: rest).drop s.length) + 1
    else
      countOccsF s fuel rest

/-- Modelled from the spec: occurrence count with sufficient fuel. -/
def countOccs (s buf : List Nat) : Nat :=
  countOccsF s buf.length buf

/-- A buffer contains an occurrence of `s` somewhere. -/
def hasOcc (s l : List Nat) : Prop :=
  ∃ t u, l = t ++ s ++ u

/-- Modelled from the spec (§4.3 step 5, §6, missing `plugin/patcher.py`):
the fixed, discoverable backup suffix as a character list. -/
def bakSuffix : List Char := ['.', 'b', 'a', 'k']

/-- Modelled from the spec: the deterministically derived backup name of a
target path (target path plus the fixed suffix). -/
def bakName (p : String) : String := p ++ ".bak"

/-- Modelled from the spec: recognize a backup-artifact name by the fixed
suffix. -/
def isBakName (n : String) : Bool :=
  decide (4 ≤ n.data.length) && decide (n.data.drop (n.data.length - 4) = bakSuffix)

/-- Modelled from the spec: recover the target path from a backup name by
removing the fixed suffix. -/
def stripBak (n : String) : String := String.mk (n.data.take (n.data.length - 4))

/-- Modelled from the spec (§3 PatchMetadata, missing `plugin/patcher.py`):
the persisted record describing a completed patch. -/
structure PatchMetadata where
  version : String
  occurrences : Nat
  timestamp : Nat
  entryLabel : String
deriving DecidableEq

/-- Modelled from the spec (§3 BinaryFile, missing `plugin/patcher.py`):
file content is the raw byte buffer together with the embedded patch
metadata record (present exactly on patched files). -/
structure FileContent where
  bytes : List Nat
  meta : Option PatchMetadata
deriving DecidableEq

/-- A directory: an association list from file names to contents, in
enumeration order. -/
abbrev Dir := List (String × FileContent)

/-- The names of a directory's files, in enumeration order. -/
def names (d : Dir) : List String := d.map Prod.fst

/-- Read a file's content from a directory. -/
def readFile (d : Dir) (k : String) : Option FileContent :=
  match d with
  | [] => none
  | (k₂, v) :: rest => if k₂ = k then some v else readFile rest k

/-- Atomically write a file: replace the content in place when the name
exists, otherwise append the new file at the end of the enumeration. -/
def writeFile (d : Dir) (k : String) (v : FileContent) : Dir :=
  match d with
  | [] => [(k, v)]
  | (k₂, v₂) :: rest => if k₂ = k then (k₂, v) :: rest else (k₂, v₂) :: writeFile rest k v

/-- Delete a file by name. -/
def deleteFile (d : Dir) (k : String) : Dir :=
  match d with
  | [] => []
  | (k₂, v₂) :: rest => if k₂ = k then rest else (k₂, v₂) :: deleteFile rest k

/-- Modelled from the spec (§3 SignatureEntry, missing `plugin/patcher.py`):
one known supported binary release with its fingerprint and the ordered
search/replacement pattern pairs. -/
structure SignatureEntry where
  versionLabel : String
  fingerprint : Nat
  patterns : List (List Nat × List Nat)
deriving DecidableEq

/-- Modelled from the spec (§2, §4.2, missing `plugin/patcher.py`): a
deterministic content fingerprint, a stable hash over the bytes. -/
def fingerprint (bytes : List Nat) : Nat :=
  bytes.foldl (fun h b => (h * 131 + b + 1) % 1000003) 5381

/-- Modelled from the spec (§4.1 Signature Catalog, missing
`plugin/patcher.py`): look a fingerprint up in the catalog. -/
def lookupEntry (cat : List SignatureEntry) (fp : Nat) : Option SignatureEntry :=
  match cat with
  | [] => none
  | e :: rest => if e.fingerprint = fp then some e else lookupEntry rest fp

/-- Modelled from the spec (§4.3 step 3, missing `plugin/patcher.py`): the
most recent catalog entry, used for the best-effort fallback when
`allowUnsupported` is set.  The catalog is ordered oldest first, so the
most recent entry is the last one. -/
def mostRecentEntry (cat : List SignatureEntry) : Option SignatureEntry :=
  cat.getLast?

/-- Modelled from the spec (§4.2 Integrity Scanner, missing
`plugin/patcher.py`): the classification result. -/
inductive Classification where
  | unpatched (e : SignatureEntry)
  | alreadyPatched (m : PatchMetadata)
  | unsupported
deriving DecidableEq

/-- Modelled from the spec (§4.2, missing `plugin/patcher.py`): classify a
file content — a valid metadata record means already patched, otherwise the
fingerprint is matched against the catalog. -/
def classify (cat : List SignatureEntry) (c : FileContent) : Classification :=
  match c.meta with
  | some m => Classification.alreadyPatched m
  | none =>
    match lookupEntry cat (fingerprint c.bytes) with
    | some e => Classification.unpatched e
    | none => Classification.unsupported

/-- Modelled from the spec (§4.2, missing `plugin/patcher.py`): the scanner
operation on the file system.  It is a pure read: the returned state is the
input state. -/
def classifyFile (cat : List SignatureEntry) (d : Dir) (path : String) :
    Dir × Option Classification :=
  (d, (readFile d path).map (classify cat))

/-- Modelled from the spec (§7 error kinds, missing `plugin/patcher.py`). -/
inductive PatchError where
  | alreadyPatched (m : PatchMetadata)
  | unsupported (fp : Nat)
  | patternNotFound (entryLabel : String)
  | ioFailure (path : String)
deriving DecidableEq

/-- Result of the patch engine: the occurrence count on success, a
structured error kind otherwise. -/
inductive PatchResult where
  | ok (occurrences : Nat)
  | err (e : PatchError)
deriving DecidableEq

/-- Modelled from the spec (§4.3 step 4, missing `plugin/patcher.py`): apply
every search/replacement pair in order, replacing all occurrences and
accumulating the count; zero occurrences of a required pattern is a
failure. -/
def applyPatterns : List (List Nat × List Nat) → List Nat → Option (List Nat × Nat)
  | [], buf => some (buf, 0)
  | (s, r) :: ps, buf =>
    let p := replaceAll s r buf
    if p.2 = 0 then none
    else
      match applyPatterns ps p.1 with
      | some q => some (q.1, p.2 + q.2)
      | none => none

/-- Modelled from the spec (§4.3 steps 5-7, missing `plugin/patcher.py`):
the write sequence of a successful patch — first the backup artifact with
the original unmodified content, then the atomic write of the patched
buffer carrying the metadata record. -/
def commitPatch (d : Dir) (path : String) (orig : FileContent)
    (nb : List Nat) (m : PatchMetadata) : Dir :=
  writeFile (writeFile d (bakName path) orig) path (FileContent.mk nb (some m))

/-- The persistent states traversed by `commitPatch`, in order: before any
write, after the backup write, and after the atomic target write. -/
def commitStates (d : Dir) (path : String) (orig : FileContent)
    (nb : List Nat) (m : PatchMetadata) : List Dir :=
  [d, writeFile d (bakName path) orig, commitPatch d path orig nb m]

/-- Modelled from the spec (§4.3, missing `plugin/patcher.py`): patch with a
selected signature entry. -/
def patchWith (v : String) (now : Nat) (d : Dir) (path : String)
    (orig : FileContent) (e : SignatureEntry) : Dir × PatchResult :=
  match applyPatterns e.patterns orig.bytes with
  | none => (d, PatchResult.err (PatchError.patternNotFound e.versionLabel))
  | some q =>
    (commitPatch d path orig q.1 (PatchMetadata.mk v q.2 now e.versionLabel),
      PatchResult.ok q.2)

/-- Modelled from the spec (§4.3 Patch Engine, missing `plugin/patcher.py`):
`patch(path, allowUnsupported)`.  Classifies the file, rejects
already-patched and unsupported files, optionally falls back to the most
recent catalog entry, applies the patterns, commits backup plus patched
bytes plus metadata, and returns the occurrence count.  On failure the
directory is returned unchanged. -/
def patch (cat : List SignatureEntry) (v : String) (now : Nat) (d : Dir)
    (path : String) (allowUnsupported : Bool) : Dir × PatchResult :=
  match readFile d path with
  | none => (d, PatchResult.err (PatchError.ioFailure path))
  | some c =>
    match classify cat c with
    | Classification.alreadyPatched m =>
      (d, PatchResult.err (PatchError.alreadyPatched m))
    | Classification.unpatched e => patchWith v now d path c e
    | Classification.unsupported =>
      if allowUnsupported then
        match mostRecentEntry cat with
        | some e => patchWith v now d path c e
        | none => (d, PatchResult.err (PatchError.unsupported (fingerprint c.bytes)))
      else (d, PatchResult.err (PatchError.unsupported (fingerprint c.bytes)))

/-- Modelled from the spec (§4.4 State Inspector, missing
`plugin/patcher.py`): read the metadata record back from a file. -/
def extract_patch_info (d : Dir) (path : String) : Option PatchMetadata :=
  match readFile d path with
  | none => none
  | some c => c.meta

/-- Modelled from the spec (§4.5 Restore Engine, missing
`plugin/patcher.py`): restore one backup artifact — when the corresponding
target still exists, atomically overwrite the target with the backup's
content and delete the backup; otherwise skip. -/
def restoreOne (d : Dir) (bname : String) : Dir × Option String :=
  match readFile d (stripBak bname), readFile d bname with
  | some _, some bc => (deleteFile (writeFile d (stripBak bname) bc) bname, some (stripBak bname))
  | _, _ => (d, none)

/-- Modelled from the spec (§4.5, missing `plugin/patcher.py`): the backup
artifacts of a directory, found by the fixed naming suffix, in enumeration
order. -/
def backupNames (d : Dir) : List String :=
  (names d).filter (fun n => isBakName n)

/-- One fold step of directory restoration: restore the next backup and
append the restored target, if any, to the accumulated list. -/
def restoreStep (acc : Dir × List String) (n : String) : Dir × List String :=
  ((restoreOne acc.1 n).1, acc.2 ++ (restoreOne acc.1 n).2.toList)

/-- Modelled from the spec (§4.5, missing `plugin/patcher.py`):
`restoreDirectory` — enumerate the backup artifacts and restore each,
returning the successfully restored target paths in enumeration order.  An
empty list is a valid, non-error outcome. -/
def restore_directory (d : Dir) : Dir × List String :=
  (backupNames d).foldl restoreStep (d, [])

/-- Structured user-visible output of the command layer
(`src/plugin/commands.py`): error boxes, info boxes and console messages,
carrying the structured context they render. -/
inductive Msg where
  | errorNoFileRestored
  | consoleRestored (idx total : Nat) (file : String)
  | infoRestoredCount (total : Nat)
  | infoPatched (path : String) (occurrences : Nat)
  | errorPatchFailed
  | errorPatcher (e : PatchError)
  | infoAlreadyPatched (path : String) (vOld vNew : String) (newerNote : Bool)
  | consolePatchInfo (info : Option PatchMetadata)
deriving DecidableEq

/-- The world a command acts on: the server binary's directory, the number
of language-server restarts triggered, and the ordered log of messages. -/
structure World where
  dir : Dir
  restarts : Nat
  log : List Msg
deriving DecidableEq

/-- From `src/plugin/commands.py` (`restart_intelephense_server`): restart
the dependent language server. -/
def restartServer (w : World) : World :=
  World.mk w.dir (w.restarts + 1) w.log

/-- Default version label used when no metadata record is present
(`patch_info["version"]` lookup on a missing record degrades to a default,
spec §4.4). -/
def noVersion : String := ""

/-- From `src/plugin/commands.py` line 101: the "current patcher is newer
than the patching one" determination, `Patcher.VERSION >
patch_info["version"]` — a Python string comparison, i.e. lexicographic
comparison of the code points of the two version labels. -/
def patcherNewerNote (vEngine vMeta : String) : Bool :=
  decide (vMeta.data < vEngine.data)

/-- From `src/plugin/commands.py`
(`PatcherLspIntelephenseUnpatchCommand.run`): restore the directory; an
empty restored list is reported as an error and the command returns without
restarting; otherwise every restored file is logged, the server is
restarted only when `isDirect`, and the restored count is reported. -/
def unpatchCmd (isDirect : Bool) (w : World) : World :=
  let p := restore_directory w.dir
  let w₁ := World.mk p.1 w.restarts w.log
  if p.2.isEmpty then
    World.mk w₁.dir w₁.restarts (w₁.log ++ [Msg.errorNoFileRestored])
  else
    let w₂ := World.mk w₁.dir w₁.restarts
      (w₁.log ++ p.2.enum.map (fun q => Msg.consoleRestored (q.1 + 1) p.2.length q.2))
    let w₃ := if isDirect then restartServer w₂ else w₂
    World.mk w₃.dir w₃.restarts (w₃.log ++ [Msg.infoRestoredCount p.2.length])

/-- From `src/plugin/commands.py`
(`PatcherLspIntelephensePatchCommand.run`): run the patch engine; on
success report the occurrence count (or a failure box when it is zero), on
`AlreadyPatchedException` report the already-patched info together with the
version-comparison note, on `PatcherUnsupportedException` report the error
and return; when the run counts as a success, restart the server if
`isDirect` and log the extracted patch info. -/
def patchCmd (cat : List SignatureEntry) (v : String) (now : Nat)
    (binaryPath : String) (allowUnsupported isDirect : Bool) (w : World) : World :=
  let p := patch cat v now w.dir binaryPath allowUnsupported
  let w₁ := World.mk p.1 w.restarts w.log
  match p.2 with
  | PatchResult.ok n =>
    let w₂ := World.mk w₁.dir w₁.restarts
      (w₁.log ++ [if 0 < n then Msg.infoPatched binaryPath n else Msg.errorPatchFailed])
    let w₃ := if isDirect then restartServer w₂ else w₂
    World.mk w₃.dir w₃.restarts
      (w₃.log ++ [Msg.consolePatchInfo (extract_patch_info w₁.dir binaryPath)])
  | PatchResult.err (PatchError.alreadyPatched _) =>
    let info := extract_patch_info w₁.dir binaryPath
    let vOld := match info with
      | some m₂ => m₂.version
      | none => noVersion
    let w₂ := World.mk w₁.dir w₁.restarts
      (w₁.log ++ [Msg.infoAlreadyPatched binaryPath vOld v (patcherNewerNote v vOld)])
    let w₃ := if isDirect then restartServer w₂ else w₂
    World.mk w₃.dir w₃.restarts (w₃.log ++ [Msg.consolePatchInfo info])
  | PatchResult.err e =>
    World.mk w₁.dir w₁.restarts (w₁.log ++ [Msg.errorPatcher e])

/-- From `src/plugin/commands.py`
(`PatcherLspIntelephenseRepatchCommand.run`): re-patch is the un-patch
command followed by the patch command (both run indirectly, without their
own restart), followed by one server restart. -/
def repatchCmd (cat : List SignatureEntry) (v : String) (now : Nat)
    (binaryPath : String) (w : World) : World :=
  restartServer (patchCmd cat v now binaryPath false false (unpatchCmd false w))

/-- Modelled from the spec (§9 design note: a strict semantic-version
comparator over dot-separated numeric components): split a version label at
the dots. -/
def splitDot (cs : List Char) : List (List Char) :=
  match cs with
  | [] => [[]]
  | c :: rest =>
    let r := splitDot rest
    if c = '.' then [] :: r
    else
      match r with
      | [] => [[c]]
      | g :: gs => (c :: g) :: gs

/-- Modelled from the spec: read a decimal component. -/
def digitsToNat (cs : List Char) : Nat :=
  cs.foldl (fun acc c => acc * 10 + (c.toNat - 48)) 0

/-- Modelled from the spec: the numeric components of a version label. -/
def semverParts (v : String) : List Nat :=
  (splitDot v.data).map digitsToNat

/-- Modelled from the spec: strict lexicographic comparison of numeric
component lists (a longer list with equal shared components is newer). -/
def natListGt : List Nat → List Nat → Bool
  | [], [] => false
  | [], _ :: _ => false
  | _ :: _, [] => true
  | a :: as, b :: bs =>
    if b < a then true
    else if a < b then false
    else natListGt as bs

/-- Modelled from the spec (§9 design note): the strict semantic-version
"newer than" comparator the spec asks implementers to use. -/
def semverNewer (a b : String) : Bool :=
  natListGt (semverParts a) (semverParts b)

/-- Fixture: the server binary's file name. -/
def binPath : String := "intelephense.js"

/-- Fixture: a second target name whose backup will be an orphan. -/
def orpPath : String := "orphan.js"

/-- Fixture: engine version label of the modelled patcher. -/
def verEngine : String := "1.0.2"

/-- Fixture: version label of the catalog entry. -/
def verLabel0 : String := "1.0.0"

/-- Fixture: version label with a two-digit minor component. -/
def v210 : String := "2.10"

/-- Fixture: version label with a one-digit minor component. -/
def v29 : String := "2.9"

/-- Fixture: the known search pattern. -/
def patBytes : List Nat := [1, 2]

/-- Fixture: the replacement block (disjoint from the pattern's bytes). -/
def replBytes : List Nat := [7]

/-- Fixture: an unpatched buffer containing exactly 3 instances of the
known search pattern. -/
def fixtureBytes : List Nat := [1, 2, 0, 1, 2, 0, 1, 2]

/-- Fixture: the unpatched file content. -/
def fixtureContent : FileContent := FileContent.mk fixtureBytes none

/-- Fixture: the catalog entry matching the fixture binary. -/
def entry0 : SignatureEntry :=
  SignatureEntry.mk verLabel0 (fingerprint fixtureBytes) [(patBytes, replBytes)]

/-- Fixture: a one-entry signature catalog. -/
def cat0 : List SignatureEntry := [entry0]

/-- Fixture: a directory holding only the unpatched fixture binary. -/
def exDir1 : Dir := [(binPath, fixtureContent)]

/-- Fixture: bytes with an unrecognized fingerprint and no patterns. -/
def bytes9 : List Nat := [9, 9]

/-- Fixture: unsupported file content. -/
def content9 : FileContent := FileContent.mk bytes9 none

/-- Fixture: a directory holding only the unsupported binary. -/
def exDir9 : Dir := [(binPath, content9)]

/-- Fixture: a metadata record written by an older patcher. -/
def metaOld : PatchMetadata := PatchMetadata.mk v29 3 1 verLabel0

/-- Fixture: an already-patched file content. -/
def contentPatched : FileContent := FileContent.mk [7, 0, 7, 0, 7] (some metaOld)

/-- Fixture: a directory holding an already-patched binary. -/
def exDirAP : Dir := [(binPath, contentPatched)]

/-- Fixture: command-layer world over the already-patched directory. -/
def worldAP : World := World.mk exDirAP 0 []

/-- Fixture: command-layer world over the unsupported directory (no
backups, so a restore finds nothing). -/
def world9 : World := World.mk exDir9 0 []

/-- Fixture: command-layer world over the unpatched fixture directory. -/
def world1 : World := World.mk exDir1 0 []

/-- Fixture: the backup content of the valid backup+target pair. -/
def contentB : FileContent := FileContent.mk [1, 2] none

/-- Fixture: orphan backup content. -/
def contentO : FileContent := FileContent.mk [3] none

/-- Fixture: a directory with one valid backup+target pair and one orphan
backup whose target has been deleted. -/
def exDir6 : Dir :=
  [(binPath, contentPatched), (bakName binPath, contentB), (bakName orpPath, contentO)]

/-- Modelled from the spec (§4.5): re-patch as the spec's words define it —
the composition of the restore engine and the patch engine on the binary's
directory, stated at the engine level for comparison with the command-layer
re-patch. -/
def repatchSpecComposition (cat : List SignatureEntry) (v : String) (now : Nat)
    (binaryPath : String) (d : Dir) : Dir :=
  (patch cat v now ((restore_directory d).1) binaryPath false).1

theorem replaceAllF_count_eq (s r : List Nat) :
    ∀ fuel buf, (replaceAllF s r fuel buf).2 = countOccsF s fuel buf := by
  intro fuel
  induction fuel with
  | zero =>
    intro buf
    cases buf <;> simp [replaceAllF, countOccsF]
  | succ f ih =>
    intro buf
    cases buf with
    | nil => simp [replaceAllF, countOccsF]
    | cons b rest =>
      by_cases h : s ≠ [] ∧ (b :: rest).take s.length = s
      · simp only [replaceAllF, countOccsF, if_pos h]
        exact congrArg (· + 1) (ih _)
      · simp only [replaceAllF, countOccsF, if_neg h]
        exact ih _

theorem countOccsF_eq_zero_of_not_hasOcc (s : List Nat) :
    ∀ fuel l, ¬ hasOcc s l → countOccsF s fuel l = 0 := by
  intro fuel
  induction fuel with
  | zero =>
    intro l _
    cases l <;> simp [countOccsF]
  | succ f ih =>
    intro l hno
    cases l with
    | nil => simp [countOccsF]
    | cons b rest =>
      by_cases h : s ≠ [] ∧ (b :: rest).take s.length = s
      · refine absurd ⟨[], (b :: rest).drop s.length, ?_⟩ hno
        have hsplit := List.take_append_drop s.length (b :: rest)
        rw [h.2] at hsplit
        rw [List.nil_append]
        exact hsplit.symm
      · simp only [countOccsF, if_neg h]
        refine ih rest ?_
        rintro ⟨t, u, rfl⟩
        exact hno ⟨b :: t, u, rfl⟩

theorem countOccs_eq_zero_of_not_hasOcc (s l : List Nat) (h : ¬ hasOcc s l) :
    countOccs s l = 0 :=
  countOccsF_eq_zero_of_not_hasOcc s l.length l h

/-- If a block `r₀` whose elements avoid the pattern `s` is prepended to a
buffer free of occurrences of `s`, the result is still free of them. -/
theorem not_hasOcc_append (s : List Nat) :
    ∀ r₀ out, (∀ x ∈ r₀, x ∉ s) → s ≠ [] → ¬ hasOcc s out →
      ¬ hasOcc s (r₀ ++ out) := by
  intro r₀
  induction r₀ with
  | nil =>
    intro out _ _ hno
    simpa using hno
  | cons x r' ih =>
    intro out hdisj hs hno
    rintro ⟨t, u, heq⟩
    cases t with
    | nil =>
      cases s with
      | nil => exact hs rfl
      | cons a s₂ =>
        simp only [List.nil_append, List.cons_append, List.cons.injEq] at heq
        refine (hdisj x (List.mem_cons_self x r')) ?_
        rw [heq.1]
        exact List.mem_cons_self a s₂
    | cons y t' =>
      simp only [List.cons_append, List.cons.injEq] at heq
      exact ih out (fun z hz => hdisj z (List.mem_cons_of_mem x hz)) hs hno
        ⟨t', u, heq.2⟩

/-- Any nonempty prefix of the output of `replaceAllF` whose elements avoid
the replacement block is already a prefix of the input buffer. -/
theorem replaceAllF_prefix_transfer (s r : List Nat) (hr : r ≠ []) :
    ∀ fuel l u, l.length ≤ fuel → u ≠ [] → (∀ x ∈ u, x ∉ r) →
      (∃ w, (replaceAllF s r fuel l).1 = u ++ w) → ∃ w, l = u ++ w := by
  intro fuel
  induction fuel with
  | zero =>
    intro l u hlen hu _ hpre
    have hl : l = [] := List.length_eq_zero.mp (Nat.le_zero.mp hlen)
    subst hl
    rcases hpre with ⟨w, hw⟩
    simp only [replaceAllF] at hw
    rcases List.append_eq_nil.mp hw.symm with ⟨rfl, -⟩
    exact absurd rfl hu
  | succ f ih =>
    intro l u hlen hu hdisj hpre
    cases l with
    | nil =>
      rcases hpre with ⟨w, hw⟩
      simp only [replaceAllF] at hw
      rcases List.append_eq_nil.mp hw.symm with ⟨rfl, -⟩
      exact absurd rfl hu
    | cons b rest =>
      have hrest : rest.length ≤ f := by
        simp only [List.length_cons] at hlen
        omega
      by_cases h : s ≠ [] ∧ (b :: rest).take s.length = s
      · rcases hpre with ⟨w, hw⟩
        simp only [replaceAllF, if_pos h] at hw
        cases u with
        | nil => exact absurd rfl hu
        | cons x u₂ =>
          cases r with
          | nil => exact absurd rfl hr
          | cons y r₂ =>
            simp only [List.cons_append, List.cons.injEq] at hw
            exact absurd (hw.1 ▸ List.mem_cons_self y r₂)
              (hdisj x (List.mem_cons_self x u₂))
      · rcases hpre with ⟨w, hw⟩
        simp only [replaceAllF, if_neg h] at hw
        cases u with
        | nil => exact absurd rfl hu
        | cons x u₂ =>
          simp only [List.cons_append, List.cons.injEq] at hw
          by_cases hu₂ : u₂ = []
          · subst hu₂
            exact ⟨rest, by simp [hw.1]⟩
          · rcases ih rest u₂ hrest hu₂
              (fun z hz => hdisj z (List.mem_cons_of_mem x hz)) ⟨w, hw.2⟩ with ⟨w', hw'⟩
            exact ⟨w', by simp [hw.1, hw']⟩

/-- Core postcondition of pattern replacement: when the replacement block is
nonempty and shares no byte with the search pattern, the output of
`replaceAllF` contains no occurrence of the search pattern. -/
theorem replaceAllF_not_hasOcc (s r : List Nat)
    (hs : s ≠ []) (hr : r ≠ []) (hdisj : ∀ x ∈ r, x ∉ s) :
    ∀ fuel l, l.length ≤ fuel → ¬ hasOcc s (replaceAllF s r fuel l).1 := by
  intro fuel
  induction fuel with
  | zero =>
    intro l hlen
    have hl : l = [] := List.length_eq_zero.mp (Nat.le_zero.mp hlen)
    subst hl
    rintro ⟨t, u, heq⟩
    simp only [replaceAllF] at heq
    rcases List.append_eq_nil.mp heq.symm with ⟨h2, -⟩
    rcases List.append_eq_nil.mp h2 with ⟨-, rfl⟩
    exact hs rfl
  | succ f ih =>
    intro l hlen
    cases l with
    | nil =>
      rintro ⟨t, u, heq⟩
      simp only [replaceAllF] at heq
      rcases List.append_eq_nil.mp heq.symm with ⟨h2, -⟩
      rcases List.append_eq_nil.mp h2 with ⟨-, rfl⟩
      exact hs rfl
    | cons b rest =>
      have hrest : rest.length ≤ f := by
        simp only [List.length_cons] at hlen
        omega
      by_cases h : s ≠ [] ∧ (b :: rest).take s.length = s
      · simp only [replaceAllF, if_pos h]
        have hdrop : ((b :: rest).drop s.length).length ≤ f := by
          have hpos : 0 < s.length := List.length_pos.mpr hs
          simp only [List.length_drop, List.length_cons]
          omega
        exact not_hasOcc_append s r _ hdisj hs (ih _ hdrop)
      · simp only [replaceAllF, if_neg h]
        rintro ⟨t, u, heq⟩
        cases t with
        | nil =>
          cases s with
          | nil => exact hs rfl
          | cons a s₂ =>
            simp only [List.nil_append, List.cons_append, List.cons.injEq] at heq
            by_cases hs₂ : s₂ = []
            · subst hs₂
              exact h ⟨hs, by simp [heq.1]⟩
            · have hdisj₂ : ∀ x ∈ s₂, x ∉ r := by
                intro x hx hxr
                exact hdisj x hxr (List.mem_cons_of_mem a hx)
              rcases replaceAllF_prefix_transfer (a :: s₂) r hr f rest s₂ hrest hs₂
                hdisj₂ ⟨u, heq.2⟩ with ⟨w, hw⟩
              refine h ⟨hs, ?_⟩
              subst hw
              simp only [List.length_cons, List.take_succ_cons]
              rw [List.take_left s₂ w, heq.1]
        | cons y t' =>
          simp only [List.cons_append, List.cons.injEq] at heq
          exact ih rest hrest ⟨t', u, heq.2⟩

theorem bakName_data (p : String) : (bakName p).data = p.data ++ bakSuffix := by
  have h : (String.mk bakSuffix) = ".bak" := rfl
  calc (bakName p).data = p.data ++ (".bak" : String).data := String.data_append p _
    _ = p.data ++ bakSuffix := by rw [← h]

theorem isBakName_bakName (p : String) : isBakName (bakName p) = true := by
  simp only [isBakName, bakName_data p, Bool.and_eq_true, decide_eq_true_eq]
  have hlen : (p.data ++ bakSuffix).length = p.data.length + 4 := by
    rw [List.length_append]
    rfl
  constructor
  · rw [hlen]
    omega
  · rw [hlen]
    have h4 : p.data.length + 4 - 4 = p.data.length := by omega
    rw [h4]
    exact List.drop_left p.data bakSuffix

theorem stripBak_bakName (p : String) : stripBak (bakName p) = p := by
  simp only [stripBak, bakName_data p]
  have hlen : (p.data ++ bakSuffix).length = p.data.length + 4 := by
    rw [List.length_append]
    rfl
  rw [hlen]
  have h4 : p.data.length + 4 - 4 = p.data.length := by omega
  rw [h4, List.take_left]

theorem bakName_stripBak (n : String) (h : isBakName n = true) :
    bakName (stripBak n) = n := by
  simp only [isBakName, Bool.and_eq_true, decide_eq_true_eq] at h
  have hsplit := List.take_append_drop (n.data.length - 4) n.data
  rw [h.2] at hsplit
  have hdata : (bakName (stripBak n)).data = n.data := by
    rw [bakName_data]
    simp only [stripBak]
    exact hsplit
  cases n with
  | mk d =>
    cases hmk : bakName (stripBak (String.mk d)) with
    | mk d₂ =>
      have : d₂ = d := by
        have := hdata
        rw [hmk] at this
        exact this
      rw [this]

theorem bakName_ne_self (p : String) : bakName p ≠ p := by
  intro h
  have hd := bakName_data p
  rw [h] at hd
  have := congrArg List.length hd
  rw [List.length_append] at this
  simp only [bakSuffix, List.length_cons, List.length_nil] at this
  omega

theorem ne_of_isBakName_ne (a b : String) (ha : isBakName a = true)
    (hb : isBakName b = false) : a ≠ b := by
  intro h
  rw [h] at ha
  rw [ha] at hb
  exact Bool.noConfusion hb

theorem readFile_writeFile_self (d : Dir) (k : String) (v : FileContent) :
    readFile (writeFile d k v) k = some v := by
  induction d with
  | nil => simp [writeFile, readFile]
  | cons hd tl ih =>
    cases hd with
    | mk ka va =>
      by_cases hk : ka = k
      · simp [writeFile, readFile, hk]
      · simp [writeFile, readFile, hk, ih]

theorem readFile_writeFile_ne (d : Dir) (k k₂ : String) (v : FileContent)
    (h : k₂ ≠ k) : readFile (writeFile d k v) k₂ = readFile d k₂ := by
  have hne : ¬ (k = k₂) := fun hh => h hh.symm
  induction d with
  | nil => simp [writeFile, readFile, hne]
  | cons hd tl ih =>
    cases hd with
    | mk ka va =>
      by_cases hk : ka = k
      · subst hk
        simp [writeFile, readFile, hne]
      · simp only [writeFile, if_neg hk, readFile]
        by_cases hk₂ : ka = k₂
        · simp [hk₂]
        · simp [hk₂, ih]

theorem readFile_deleteFile_ne (d : Dir) (k k₂ : String)
    (h : k₂ ≠ k) : readFile (deleteFile d k) k₂ = readFile d k₂ := by
  have hne : ¬ (k = k₂) := fun hh => h hh.symm
  induction d with
  | nil => simp [deleteFile]
  | cons hd tl ih =>
    cases hd with
    | mk ka va =>
      by_cases hk : ka = k
      · subst hk
        simp [deleteFile, readFile, hne]
      · simp only [deleteFile, if_neg hk, readFile]
        by_cases hk₂ : ka = k₂
        · simp [hk₂]
        · simp [hk₂, ih]

theorem names_writeFile_mem (d : Dir) (k : String) (v : FileContent) :
    k ∈ names d → names (writeFile d k v) = names d := by
  induction d with
  | nil =>
    intro h
    simp [names] at h
  | cons hd tl ih =>
    intro h
    cases hd with
    | mk ka va =>
      by_cases hk : ka = k
      · simp [writeFile, names, hk]
      · have h₂ : k ∈ names tl := by
          simp only [names, List.map_cons, List.mem_cons] at h
          rcases h with h₁ | h₂
          · exact absurd h₁.symm hk
          · exact h₂
        simp only [names, List.map_cons] at ih ⊢
        simp only [writeFile, if_neg hk, List.map_cons, List.cons.injEq, true_and]
        exact ih h₂

theorem names_writeFile_not_mem (d : Dir) (k : String) (v : FileContent) :
    k ∉ names d → names (writeFile d k v) = names d ++ [k] := by
  induction d with
  | nil =>
    intro h
    simp [writeFile, names]
  | cons hd tl ih =>
    intro h
    cases hd with
    | mk ka va =>
      simp only [names, List.map_cons, List.mem_cons] at h
      push_neg at h
      have hk : ¬ (ka = k) := fun hh => h.1 hh.symm
      simp only [names, List.map_cons] at ih ⊢
      simp only [writeFile, if_neg hk, List.map_cons, List.cons_append,
        List.cons.injEq, true_and]
      exact ih h.2

theorem readFile_isSome_of_mem (d : Dir) (k : String) :
    k ∈ names d → (readFile d k).isSome = true := by
  induction d with
  | nil =>
    intro h
    simp [names] at h
  | cons hd tl ih =>
    intro h
    cases hd with
    | mk ka va =>
      simp only [names, List.map_cons, List.mem_cons] at h
      by_cases hk : ka = k
      · simp [readFile, hk]
      · rcases h with h₁ | h₂
        · exact absurd h₁.symm hk
        · simp [readFile, hk, ih h₂]

theorem readFile_none_of_not_mem (d : Dir) (k : String) :
    k ∉ names d → readFile d k = none := by
  induction d with
  | nil =>
    intro h
    simp [readFile]
  | cons hd tl ih =>
    intro h
    cases hd with
    | mk ka va =>
      simp only [names, List.map_cons, List.mem_cons] at h
      push_neg at h
      have hk : ¬ (ka = k) := fun hh => h.1 hh.symm
      simp [readFile, hk, ih h.2]

theorem mem_of_readFile_isSome (d : Dir) (k : String)
    (h : (readFile d k).isSome = true) : k ∈ names d := by
  by_contra hmem
  rw [readFile_none_of_not_mem d k hmem] at h
  simp at h

theorem classify_meta_none (cat : List SignatureEntry) (c : FileContent)
    (e : SignatureEntry) (h : classify cat c = Classification.unpatched e) :
    c.meta = none := by
  cases hm : c.meta with
  | none => rfl
  | some m =>
    rw [classify, hm] at h
    exact Classification.noConfusion h

theorem patch_ok_inv (cat : List SignatureEntry) (v : String) (now : Nat)
    (d : Dir) (path : String) (au : Bool) (k : Nat)
    (h : (patch cat v now d path au).2 = PatchResult.ok k) :
    ∃ (c : FileContent) (e : SignatureEntry) (q : List Nat × Nat),
      readFile d path = some c ∧ c.meta = none ∧
      applyPatterns e.patterns c.bytes = some q ∧ q.2 = k ∧
      (patch cat v now d path au).1 =
        commitPatch d path c q.1 (PatchMetadata.mk v k now e.versionLabel) := by
  cases hr : readFile d path with
  | none =>
    simp only [patch, hr] at h
    exact PatchResult.noConfusion h
  | some c =>
    cases hcl : classify cat c with
    | alreadyPatched m =>
      simp only [patch, hr, hcl] at h
      exact PatchResult.noConfusion h
    | unpatched e =>
      have hm : c.meta = none := classify_meta_none cat c e hcl
      cases hap : applyPatterns e.patterns c.bytes with
      | none =>
        simp only [patch, hr, hcl, patchWith, hap] at h
        exact PatchResult.noConfusion h
      | some q =>
        have heq : patch cat v now d path au =
            (commitPatch d path c q.1 (PatchMetadata.mk v q.2 now e.versionLabel),
              PatchResult.ok q.2) := by
          simp only [patch, hr, hcl, patchWith, hap]
        have hk : q.2 = k := by
          rw [heq] at h
          exact PatchResult.ok.inj h
        refine ⟨c, e, q, rfl, hm, hap, hk, ?_⟩
        rw [heq, ← hk]
    | unsupported =>
      have hm : c.meta = none := by
        cases hm2 : c.meta with
        | none => rfl
        | some m2 =>
          rw [classify, hm2] at hcl
          exact Classification.noConfusion hcl
      cases au with
      | false =>
        simp only [patch, hr, hcl, Bool.false_eq_true, if_false] at h
        exact PatchResult.noConfusion h
      | true =>
        cases hmr : mostRecentEntry cat with
        | none =>
          simp [patch, hr, hcl, hmr] at h
        | some e =>
          cases hap : applyPatterns e.patterns c.bytes with
          | none =>
            simp [patch, hr, hcl, hmr, patchWith, hap] at h
          | some q =>
            have heq : patch cat v now d path true =
                (commitPatch d path c q.1 (PatchMetadata.mk v q.2 now e.versionLabel),
                  PatchResult.ok q.2) := by
              simp [patch, hr, hcl, hmr, patchWith, hap]
            have hk : q.2 = k := by
              rw [heq] at h
              exact PatchResult.ok.inj h
            refine ⟨c, e, q, rfl, hm, hap, hk, ?_⟩
            rw [heq, ← hk]

theorem patch_err_fst (cat : List SignatureEntry) (v : String) (now : Nat)
    (d : Dir) (path : String) (au : Bool) (e : PatchError)
    (h : (patch cat v now d path au).2 = PatchResult.err e) :
    (patch cat v now d path au).1 = d := by
  cases hr : readFile d path with
  | none => simp [patch, hr]
  | some c =>
    cases hcl : classify cat c with
    | alreadyPatched m => simp [patch, hr, hcl]
    | unpatched e₂ =>
      cases hap : applyPatterns e₂.patterns c.bytes with
      | none => simp [patch, hr, hcl, patchWith, hap]
      | some q =>
        simp [patch, hr, hcl, patchWith, hap] at h
    | unsupported =>
      cases au with
      | false => simp [patch, hr, hcl]
      | true =>
        cases hmr : mostRecentEntry cat with
        | none => simp [patch, hr, hcl, hmr]
        | some e₂ =>
          cases hap : applyPatterns e₂.patterns c.bytes with
          | none => simp [patch, hr, hcl, hmr, patchWith, hap]
          | some q =>
            simp [patch, hr, hcl, hmr, patchWith, hap] at h

/-- Claim C1: for every supported binary (in a directory with no
pre-existing backup artifacts), performing `patch` on it and then restoring
via `restore_directory` reproduces the original pre-patch content of the
target byte-for-byte. -/
theorem c1_patch_restore_round_trip (cat : List SignatureEntry) (v : String)
    (now : Nat) (d : Dir) (path : String) (au : Bool) (k : Nat)
    (hclean : ∀ n ∈ names d, isBakName n = false)
    (hp : (patch cat v now d path au).2 = PatchResult.ok k) :
    readFile ((restore_directory ((patch cat v now d path au).1)).1) path
      = readFile d path := by
  rcases patch_ok_inv cat v now d path au k hp with ⟨c, e, q, hr, hm, hap, hk, hfst⟩
  rw [hfst, hr, commitPatch]
  have hBtrue : isBakName (bakName path) = true := isBakName_bakName path
  have hBne : bakName path ≠ path := bakName_ne_self path
  have hPne : path ≠ bakName path := fun hh => hBne hh.symm
  have hBnot : bakName path ∉ names d := by
    intro hmem
    rw [hclean (bakName path) hmem] at hBtrue
    exact Bool.noConfusion hBtrue
  have hpmem : path ∈ names d := mem_of_readFile_isSome d path (by rw [hr]; rfl)
  have hnames1 : names (writeFile d (bakName path) c) = names d ++ [bakName path] :=
    names_writeFile_not_mem d (bakName path) c hBnot
  have hpmem1 : path ∈ names (writeFile d (bakName path) c) := by
    rw [hnames1]
    exact List.mem_append_left _ hpmem
  have hnames2 : names (writeFile (writeFile d (bakName path) c) path
      (FileContent.mk q.1 (some (PatchMetadata.mk v k now e.versionLabel))))
      = names (writeFile d (bakName path) c) :=
    names_writeFile_mem _ path _ hpmem1
  have hbn : backupNames (writeFile (writeFile d (bakName path) c) path
      (FileContent.mk q.1 (some (PatchMetadata.mk v k now e.versionLabel)))) = [bakName path] := by
    rw [backupNames, hnames2, hnames1, List.filter_append]
    have h1 : (names d).filter (fun n => isBakName n) = [] :=
      List.filter_eq_nil_iff.mpr (fun a ha => by simp [hclean a ha])
    rw [h1]
    simp [hBtrue]
  have hread2path : readFile (writeFile (writeFile d (bakName path) c) path
      (FileContent.mk q.1 (some (PatchMetadata.mk v k now e.versionLabel)))) path
      = some (FileContent.mk q.1 (some (PatchMetadata.mk v k now e.versionLabel))) :=
    readFile_writeFile_self _ path _
  have hread2B : readFile (writeFile (writeFile d (bakName path) c) path
      (FileContent.mk q.1 (some (PatchMetadata.mk v k now e.versionLabel)))) (bakName path)
      = some c := by
    rw [readFile_writeFile_ne _ path (bakName path) _ hBne]
    exact readFile_writeFile_self d (bakName path) c
  have hro : restoreOne (writeFile (writeFile d (bakName path) c) path
      (FileContent.mk q.1 (some (PatchMetadata.mk v k now e.versionLabel)))) (bakName path)
      = (deleteFile (writeFile (writeFile (writeFile d (bakName path) c) path
          (FileContent.mk q.1 (some (PatchMetadata.mk v k now e.versionLabel)))) path c)
          (bakName path), some path) := by
    rw [restoreOne]
    rw [stripBak_bakName path, hread2path, hread2B]
  rw [restore_directory, hbn]
  simp only [List.foldl_cons, List.foldl_nil, restoreStep, hro]
  rw [readFile_deleteFile_ne _ (bakName path) path hPne]
  exact readFile_writeFile_self _ path c

/-- Claim C2: for a binary whose buffer contains exactly `n` occurrences
(`n > 0`) of the required search pattern of its matching catalog entry
(with a well-formed entry: one nonempty required pattern whose nonempty
replacement shares no byte with it, so that replacement cannot reintroduce
the pattern), a successful `patch` returns occurrence count `n`, the
resulting file contains zero occurrences of the search pattern, and a
backup artifact holding the exact pre-patch content exists. -/
theorem c2_occurrence_accounting (cat : List SignatureEntry) (v : String)
    (now : Nat) (d : Dir) (path : String) (au : Bool) (c : FileContent)
    (e : SignatureEntry) (s r : List Nat) (n : Nat)
    (hc : readFile d path = some c) (hm : c.meta = none)
    (hl : lookupEntry cat (fingerprint c.bytes) = some e)
    (hps : e.patterns = [(s, r)])
    (hs : s ≠ []) (hr2 : r ≠ [])
    (hdisj : ∀ x ∈ r, x ∉ s)
    (hn : countOccs s c.bytes = n) (hpos : 0 < n) :
    (patch cat v now d path au).2 = PatchResult.ok n
    ∧ (∃ nc, readFile ((patch cat v now d path au).1) path = some nc
        ∧ countOccs s nc.bytes = 0)
    ∧ readFile ((patch cat v now d path au).1) (bakName path) = some c := by
  have hcl : classify cat c = Classification.unpatched e := by
    simp only [classify, hm, hl]
  have hcount : (replaceAll s r c.bytes).2 = n := by
    rw [replaceAll, replaceAllF_count_eq]
    exact hn
  have hap : applyPatterns e.patterns c.bytes
      = some ((replaceAll s r c.bytes).1, n) := by
    rw [hps]
    simp only [applyPatterns, hcount]
    rw [if_neg (by omega : ¬ n = 0)]
    simp [applyPatterns]
  have heq : patch cat v now d path au
      = (commitPatch d path c (replaceAll s r c.bytes).1
          (PatchMetadata.mk v n now e.versionLabel), PatchResult.ok n) := by
    simp only [patch, hc, hcl, patchWith, hap]
  have hBne : bakName path ≠ path := bakName_ne_self path
  refine ⟨by rw [heq], ?_, ?_⟩
  · refine ⟨FileContent.mk (replaceAll s r c.bytes).1
      (some (PatchMetadata.mk v n now e.versionLabel)), ?_, ?_⟩
    · rw [heq]
      exact readFile_writeFile_self _ path _
    · exact countOccs_eq_zero_of_not_hasOcc s _
        (replaceAllF_not_hasOcc s r hs hr2 hdisj c.bytes.length c.bytes le_rfl)
  · rw [heq]
    show readFile (commitPatch d path c _ _) (bakName path) = some c
    rw [commitPatch, readFile_writeFile_ne _ path (bakName path) _ hBne]
    exact readFile_writeFile_self d (bakName path) c

/-- Witness for claim C1 on the fixture directory. -/
theorem c1_round_trip_witness :
    readFile ((restore_directory ((patch cat0 verEngine 7 exDir1 binPath false).1)).1)
      binPath = readFile exDir1 binPath :=
  c1_patch_restore_round_trip cat0 verEngine 7 exDir1 binPath false 3
    (by decide) (by decide)

/-- Witness for claim C2: the fixture binary contains exactly 3 instances
of the known pattern; `patch` returns 3 and the result contains 0. -/
theorem c2_occurrence_accounting_witness :
    (patch cat0 verEngine 7 exDir1 binPath false).2 = PatchResult.ok 3
    ∧ (∃ nc, readFile ((patch cat0 verEngine 7 exDir1 binPath false).1) binPath = some nc
        ∧ countOccs patBytes nc.bytes = 0)
    ∧ readFile ((patch cat0 verEngine 7 exDir1 binPath false).1) (bakName binPath)
        = some fixtureContent :=
  c2_occurrence_accounting cat0 verEngine 7 exDir1 binPath false fixtureContent
    entry0 patBytes replBytes 3 (by decide) (by decide) (by decide) (by decide)
    (by decide) (by decide) (by decide) (by decide) (by decide)

/-- Claim C3: `patch` never leaves partial state: on any failure the
directory is unchanged, and every intermediate persistent state of the
commit sequence (before any write, after the backup write — the injected
failure point — and after the atomic target write) shows the target either
as the unmodified pre-patch file or as the fully patched file, never a
truncated or mixed one. -/
theorem c3_no_partial_state (cat : List SignatureEntry) (v : String)
    (now : Nat) (d : Dir) (path : String) (au : Bool) :
    (∀ e, (patch cat v now d path au).2 = PatchResult.err e →
      (patch cat v now d path au).1 = d)
    ∧ (∀ (c : FileContent) (nb : List Nat) (m : PatchMetadata),
        ∀ st ∈ commitStates d path c nb m,
          readFile st path = readFile d path
          ∨ readFile st path = some (FileContent.mk nb (some m))) := by
  constructor
  · intro e he
    exact patch_err_fst cat v now d path au e he
  · intro c nb m st hst
    have hPne : path ≠ bakName path := fun hh => bakName_ne_self path hh.symm
    simp only [commitStates, List.mem_cons, List.not_mem_nil, or_false] at hst
    rcases hst with rfl | rfl | rfl
    · exact Or.inl rfl
    · exact Or.inl (readFile_writeFile_ne d (bakName path) path c hPne)
    · right
      rw [commitPatch]
      exact readFile_writeFile_self _ path _

/-- Witness for claim C3: a failing patch leaves the fixture directory
untouched, and the injected-failure state (after the backup write) still
reads the original target. -/
theorem c3_no_partial_state_witness :
    (patch cat0 verEngine 7 exDir9 binPath false).1 = exDir9
    ∧ (readFile (writeFile exDir9 (bakName binPath) content9) binPath
          = readFile exDir9 binPath
        ∨ readFile (writeFile exDir9 (bakName binPath) content9) binPath
          = some (FileContent.mk [7] (some metaOld))) :=
  ⟨(c3_no_partial_state cat0 verEngine 7 exDir9 binPath false).1
      (PatchError.unsupported (fingerprint bytes9)) (by decide),
    (c3_no_partial_state cat0 verEngine 7 exDir9 binPath false).2 content9 [7] metaOld
      (writeFile exDir9 (bakName binPath) content9) (by decide)⟩

/-- Claim C4: the already-patched guard: after a successful `patch`
returning occurrence count `k > 0`, a second `patch` on the unmodified
patched file fails with the already-patched error, and the metadata it
carries has occurrence count `k`. -/
theorem c4_already_patched_guard (cat : List SignatureEntry) (v v₂ : String)
    (now now₂ : Nat) (d : Dir) (path : String) (au au₂ : Bool) (k : Nat)
    (hp : (patch cat v now d path au).2 = PatchResult.ok k) (hk : 0 < k) :
    ∃ m : PatchMetadata,
      (patch cat v₂ now₂ ((patch cat v now d path au).1) path au₂).2
        = PatchResult.err (PatchError.alreadyPatched m)
      ∧ m.occurrences = k := by
  rcases patch_ok_inv cat v now d path au k hp with ⟨c, e, q, hr, hm, hap, hkq, hfst⟩
  refine ⟨PatchMetadata.mk v k now e.versionLabel, ?_, rfl⟩
  have hread : readFile ((patch cat v now d path au).1) path
      = some (FileContent.mk q.1 (some (PatchMetadata.mk v k now e.versionLabel))) := by
    rw [hfst, commitPatch]
    exact readFile_writeFile_self _ path _
  have hcl : classify cat
      (FileContent.mk q.1 (some (PatchMetadata.mk v k now e.versionLabel)))
      = Classification.alreadyPatched (PatchMetadata.mk v k now e.versionLabel) := rfl
  obtain ⟨d₂, hd₂⟩ : ∃ d₂, (patch cat v now d path au).1 = d₂ := ⟨_, rfl⟩
  rw [hd₂] at hread ⊢
  simp only [patch, hread, hcl]

/-- Witness for claim C4 on the fixture: the first patch returns 3, the
second fails with already-patched metadata carrying 3. -/
theorem c4_already_patched_guard_witness :
    ∃ m : PatchMetadata,
      (patch cat0 v210 9 ((patch cat0 verEngine 7 exDir1 binPath false).1) binPath true).2
        = PatchResult.err (PatchError.alreadyPatched m)
      ∧ m.occurrences = 3 :=
  c4_already_patched_guard cat0 verEngine v210 7 9 exDir1 binPath false true 3
    (by decide) (by decide)

/-- Claim C5: a binary whose fingerprint matches no catalog entry and that
contains none of the known search patterns is rejected: with
`allowUnsupported` false `patch` fails with the unsupported error naming
the unrecognized fingerprint, and with `allowUnsupported` true it fails
with the pattern-not-found error because the fallback entry's first
required pattern is absent. -/
theorem c5_unsupported_rejection (cat : List SignatureEntry) (v : String)
    (now : Nat) (d : Dir) (path : String) (c : FileContent) (e : SignatureEntry)
    (s r : List Nat) (ps : List (List Nat × List Nat))
    (hc : readFile d path = some c) (hm : c.meta = none)
    (hl : lookupEntry cat (fingerprint c.bytes) = none)
    (he : mostRecentEntry cat = some e)
    (hps : e.patterns = (s, r) :: ps)
    (hz : countOccs s c.bytes = 0) :
    (patch cat v now d path false).2
      = PatchResult.err (PatchError.unsupported (fingerprint c.bytes))
    ∧ (patch cat v now d path true).2
      = PatchResult.err (PatchError.patternNotFound e.versionLabel) := by
  have hcl : classify cat c = Classification.unsupported := by
    simp only [classify, hm, hl]
  constructor
  · simp [patch, hc, hcl]
  · have hcount : (replaceAll s r c.bytes).2 = 0 := by
      rw [replaceAll, replaceAllF_count_eq]
      exact hz
    have hap : applyPatterns e.patterns c.bytes = none := by
      rw [hps]
      simp only [applyPatterns, hcount]
      simp
    simp [patch, hc, hcl, he, patchWith, hap]

/-- Witness for claim C5 on the unsupported fixture binary. -/
theorem c5_unsupported_rejection_witness :
    (patch cat0 verEngine 7 exDir9 binPath false).2
      = PatchResult.err (PatchError.unsupported (fingerprint bytes9))
    ∧ (patch cat0 verEngine 7 exDir9 binPath true).2
      = PatchResult.err (PatchError.patternNotFound verLabel0) :=
  c5_unsupported_rejection cat0 verEngine 7 exDir9 binPath content9 entry0
    patBytes replBytes [] (by decide) (by decide) (by decide) (by decide)
    (by decide) (by decide)

theorem restore_fold (d0 : Dir) :
    ∀ (L : List String) (dcur : Dir) (acc : List String),
      (∀ n ∈ L, isBakName n = true) →
      L.Nodup →
      (∀ n ∈ L, isBakName (stripBak n) = false) →
      (∀ x : String, isBakName x = false →
        (readFile dcur x).isSome = (readFile d0 x).isSome) →
      (∀ n ∈ L, readFile dcur n = readFile d0 n) →
      (∀ n ∈ L, (readFile d0 n).isSome = true) →
      (L.foldl restoreStep (dcur, acc)).2
          = acc ++ (L.filter (fun n => (readFile d0 (stripBak n)).isSome)).map stripBak
      ∧ (∀ n ∈ L, (readFile d0 (stripBak n)).isSome = false →
          readFile (L.foldl restoreStep (dcur, acc)).1 n = readFile d0 n)
      ∧ (∀ m : String, isBakName m = true → m ∉ L →
          readFile (L.foldl restoreStep (dcur, acc)).1 m = readFile dcur m) := by
  intro L
  induction L with
  | nil =>
    intro dcur acc _ _ _ _ _ _
    refine ⟨by simp, ?_, ?_⟩
    · intro n hn
      exact absurd hn (List.not_mem_nil n)
    · intro m _ _
      rfl
  | cons n L' ih =>
    intro dcur acc hbak hnd hsb hinv hagree hsome
    have hmemn : n ∈ n :: L' := List.mem_cons_self n L'
    have hbn : isBakName n = true := hbak n hmemn
    have htb : isBakName (stripBak n) = false := hsb n hmemn
    have htn : stripBak n ≠ n :=
      fun hh => ne_of_isBakName_ne n (stripBak n) hbn htb hh.symm
    rcases List.nodup_cons.mp hnd with ⟨hnL, hnd'⟩
    have hbak' : ∀ n₂ ∈ L', isBakName n₂ = true :=
      fun n₂ hn₂ => hbak n₂ (List.mem_cons_of_mem n hn₂)
    have hsb' : ∀ n₂ ∈ L', isBakName (stripBak n₂) = false :=
      fun n₂ hn₂ => hsb n₂ (List.mem_cons_of_mem n hn₂)
    have hsome' : ∀ n₂ ∈ L', (readFile d0 n₂).isSome = true :=
      fun n₂ hn₂ => hsome n₂ (List.mem_cons_of_mem n hn₂)
    obtain ⟨bc, hbc⟩ : ∃ bc, readFile dcur n = some bc := by
      rw [hagree n hmemn]
      exact Option.isSome_iff_exists.mp (hsome n hmemn)
    by_cases hEx : (readFile d0 (stripBak n)).isSome = true
    · obtain ⟨tc, htc⟩ : ∃ tc, readFile dcur (stripBak n) = some tc := by
        refine Option.isSome_iff_exists.mp ?_
        rw [hinv (stripBak n) htb]
        exact hEx
      have hstep : restoreStep (dcur, acc) n
          = (deleteFile (writeFile dcur (stripBak n) bc) n, acc ++ [stripBak n]) := by
        simp only [restoreStep, restoreOne, htc, hbc]
        rfl
      have hinv' : ∀ x : String, isBakName x = false →
          (readFile (deleteFile (writeFile dcur (stripBak n) bc) n) x).isSome
            = (readFile d0 x).isSome := by
        intro x hx
        have hxn : x ≠ n := fun hh => ne_of_isBakName_ne n x hbn hx hh.symm
        rw [readFile_deleteFile_ne _ n x hxn]
        by_cases hxt : x = stripBak n
        · subst hxt
          rw [readFile_writeFile_self, hEx]
          rfl
        · rw [readFile_writeFile_ne _ (stripBak n) x bc hxt]
          exact hinv x hx
      have hagree' : ∀ n₂ ∈ L',
          readFile (deleteFile (writeFile dcur (stripBak n) bc) n) n₂
            = readFile d0 n₂ := by
        intro n₂ hn₂
        have hn₂n : n₂ ≠ n := fun hh => hnL (hh ▸ hn₂)
        have hn₂t : n₂ ≠ stripBak n :=
          ne_of_isBakName_ne n₂ (stripBak n) (hbak' n₂ hn₂) htb
        rw [readFile_deleteFile_ne _ n n₂ hn₂n,
          readFile_writeFile_ne _ (stripBak n) n₂ bc hn₂t]
        exact hagree n₂ (List.mem_cons_of_mem n hn₂)
      rcases ih (deleteFile (writeFile dcur (stripBak n) bc) n) (acc ++ [stripBak n])
        hbak' hnd' hsb' hinv' hagree' hsome' with ⟨ih1, ih2, ih3⟩
      refine ⟨?_, ?_, ?_⟩
      · rw [List.foldl_cons, hstep, ih1, List.filter_cons_of_pos (by simpa using hEx),
          List.map_cons, List.append_assoc]
        rfl
      · intro n₂ hn₂ hfalse
        rcases List.mem_cons.mp hn₂ with rfl | hn₂'
        · rw [hfalse] at hEx
          exact Bool.noConfusion hEx
        · rw [List.foldl_cons, hstep]
          exact ih2 n₂ hn₂' hfalse
      · intro m hmbak hmnot
        have hmn : m ≠ n := fun hh => hmnot (hh ▸ hmemn)
        have hmL : m ∉ L' := fun hh => hmnot (List.mem_cons_of_mem n hh)
        have hmt : m ≠ stripBak n := ne_of_isBakName_ne m (stripBak n) hmbak htb
        rw [List.foldl_cons, hstep, ih3 m hmbak hmL,
          readFile_deleteFile_ne _ n m hmn,
          readFile_writeFile_ne _ (stripBak n) m bc hmt]
    · have hEx₂ : (readFile d0 (stripBak n)).isSome = false := by
        cases hq : (readFile d0 (stripBak n)).isSome with
        | false => rfl
        | true => exact absurd hq hEx
      have htcn : readFile dcur (stripBak n) = none := by
        cases hoc : readFile dcur (stripBak n) with
        | none => rfl
        | some t =>
          have := hinv (stripBak n) htb
          rw [hoc, hEx₂] at this
          exact Bool.noConfusion this
      have hstep : restoreStep (dcur, acc) n = (dcur, acc) := by
        simp only [restoreStep, restoreOne, htcn, hbc]
        simp
      rcases ih dcur acc hbak' hnd' hsb' hinv
        (fun n₂ hn₂ => hagree n₂ (List.mem_cons_of_mem n hn₂)) hsome' with ⟨ih1, ih2, ih3⟩
      refine ⟨?_, ?_, ?_⟩
      · rw [List.foldl_cons, hstep, ih1,
          List.filter_cons_of_neg (by simpa using hEx₂)]
      · intro n₂ hn₂ hfalse
        rcases List.mem_cons.mp hn₂ with rfl | hn₂'
        · rw [List.foldl_cons, hstep, ih3 n₂ hbn hnL]
          exact hagree n₂ hmemn
        · rw [List.foldl_cons, hstep]
          exact ih2 n₂ hn₂' hfalse
      · intro m hmbak hmnot
        have hmL : m ∉ L' := fun hh => hmnot (List.mem_cons_of_mem n hh)
        rw [List.foldl_cons, hstep]
        exact ih3 m hmbak hmL

/-- Claim C6: `restore_directory` returns the successfully restored target
paths in enumeration order of the backup artifacts — exactly those backups
whose target still exists — while backups whose target no longer exists are
skipped, left untouched, and not treated as fatal (an empty result is a
valid outcome of the same shape). -/
theorem c6_restore_directory_enumeration (d : Dir)
    (hnd : (names d).Nodup)
    (hnb : ∀ n ∈ names d, isBakName n = true → isBakName (stripBak n) = false) :
    (restore_directory d).2
      = ((backupNames d).filter
          (fun n => (readFile d (stripBak n)).isSome)).map stripBak
    ∧ ∀ n ∈ backupNames d, (readFile d (stripBak n)).isSome = false →
        readFile (restore_directory d).1 n = readFile d n := by
  have hb : ∀ n ∈ backupNames d, isBakName n = true := by
    intro n hn
    exact List.of_mem_filter hn
  have hmem : ∀ n ∈ backupNames d, n ∈ names d := by
    intro n hn
    exact List.mem_of_mem_filter hn
  have h := restore_fold d (backupNames d) d []
    hb
    (hnd.filter _)
    (fun n hn => hnb n (hmem n hn) (hb n hn))
    (fun x _ => rfl)
    (fun n _ => rfl)
    (fun n hn => readFile_isSome_of_mem d n (hmem n hn))
  refine ⟨?_, ?_⟩
  · rw [restore_directory]
    rw [h.1]
    simp
  · intro n hn hfalse
    rw [restore_directory]
    exact h.2.1 n hn hfalse

/-- Witness for claim C6: a directory with one valid backup+target pair and
one orphan backup yields exactly one restored path, with the orphan left
untouched. -/
theorem c6_restore_directory_enumeration_witness :
    (restore_directory exDir6).2 = [binPath]
    ∧ readFile (restore_directory exDir6).1 (bakName orpPath)
        = readFile exDir6 (bakName orpPath) := by
  have h := c6_restore_directory_enumeration exDir6 (by decide) (by decide)
  refine ⟨?_, ?_⟩
  · rw [h.1]
    decide
  · exact h.2 (bakName orpPath) (by decide) (by decide)

/-- Claim C7: the re-patch command is exactly the composition of restore
followed by patch, not a distinct atomic primitive: its effect on the
directory equals performing `restore_directory` on the binary's directory
and then `patch` on the binary, so it cannot partially apply beyond what
those two operations individually guarantee. -/
theorem c7_repatch_is_restore_then_patch (cat : List SignatureEntry)
    (v : String) (now : Nat) (binaryPath : String) (w : World) :
    (repatchCmd cat v now binaryPath w).dir
      = repatchSpecComposition cat v now binaryPath w.dir := by
  have hu : (unpatchCmd false w).dir = (restore_directory w.dir).1 := by
    by_cases hemp : (restore_directory w.dir).2.isEmpty
    · simp [unpatchCmd, hemp]
    · simp [unpatchCmd, hemp]
  have hp : ∀ w₂ : World, (patchCmd cat v now binaryPath false false w₂).dir
      = (patch cat v now w₂.dir binaryPath false).1 := by
    intro w₂
    cases hres : (patch cat v now w₂.dir binaryPath false).2 with
    | ok n => simp [patchCmd, hres]
    | err e => cases e <;> simp [patchCmd, hres]
  show (patchCmd cat v now binaryPath false false (unpatchCmd false w)).dir
      = repatchSpecComposition cat v now binaryPath w.dir
  rw [hp, hu, repatchSpecComposition]

/-- Claim C8: classification is deterministic and side-effect free: the
scanner returns the file-system state unchanged, classifying the same
unmodified content a second time (on the state left by the first run)
yields the same result, and the fingerprint computed over identical bytes
is identical across runs. -/
theorem c8_classification_deterministic (cat : List SignatureEntry) (d : Dir)
    (path : String) :
    (classifyFile cat d path).1 = d
    ∧ (classifyFile cat ((classifyFile cat d path).1) path).2
        = (classifyFile cat d path).2
    ∧ ∀ b₁ b₂ : List Nat, b₁ = b₂ → fingerprint b₁ = fingerprint b₂ :=
  ⟨rfl, rfl, fun _ _ h => congrArg fingerprint h⟩

/-- Witness for claim C8 on the fixture directory. -/
theorem c8_classification_deterministic_witness :
    (classifyFile cat0 exDir1 binPath).1 = exDir1
    ∧ fingerprint fixtureBytes = fingerprint fixtureBytes :=
  ⟨(c8_classification_deterministic cat0 exDir1 binPath).1,
    (c8_classification_deterministic cat0 exDir1 binPath).2.2
      fixtureBytes fixtureBytes rfl⟩

/-- Counterexample for claim C9: the source's "newer" determination
(`Patcher.VERSION > patch_info["version"]`, a string comparison) disagrees
with a strict semantic-version ordering at the pair ("2.10", "2.9"): the
string comparison does not deem "2.10" newer than "2.9", while the
semantic-version comparator does. -/
theorem c9_version_comparison_counterexample :
    patcherNewerNote v210 v29 = false ∧ semverNewer v210 v29 = true := by
  constructor
  · decide
  · decide

/-- Claim C9 (amended): the "current patcher is newer" determination in the
patch command is a lexicographic string comparison of the version labels,
not a semantic-version comparison: for an already-patched file the command
emits the newer-patcher note exactly when the stored version label is
lexicographically below the engine's — so "2.10" is determined not newer
than "2.9". -/
theorem c9_version_comparison_is_string_order (cat : List SignatureEntry)
    (v : String) (now : Nat) (path : String) (au isDirect : Bool) (w : World)
    (c : FileContent) (m : PatchMetadata)
    (hc : readFile w.dir path = some c) (hm : c.meta = some m) :
    (patchCmd cat v now path au isDirect w).log
      = w.log ++ [Msg.infoAlreadyPatched path m.version v (patcherNewerNote v m.version),
          Msg.consolePatchInfo (some m)]
    ∧ (patcherNewerNote v m.version = true ↔ m.version.data < v.data) := by
  have hcl : classify cat c = Classification.alreadyPatched m := by
    rw [classify, hm]
  have hpe : patch cat v now w.dir path au
      = (w.dir, PatchResult.err (PatchError.alreadyPatched m)) := by
    simp [patch, hc, hcl]
  have hinfo : extract_patch_info w.dir path = some m := by
    rw [extract_patch_info, hc]
    exact hm
  constructor
  · cases isDirect <;> simp [patchCmd, hpe, hinfo, restartServer]
  · simp [patcherNewerNote]

/-- Witness for claim C9 (amended), also exhibiting the misordering: with
engine version "2.10" over metadata version "2.9" the newer-patcher note is
false. -/
theorem c9_version_comparison_is_string_order_witness :
    (patchCmd cat0 v210 9 binPath false false worldAP).log
      = [] ++ [Msg.infoAlreadyPatched binPath v29 v210 false,
          Msg.consolePatchInfo (some metaOld)]
    ∧ (patcherNewerNote v210 v29 = true ↔ v29.data < v210.data) := by
  have h := c9_version_comparison_is_string_order cat0 v210 9 binPath false false
    worldAP contentPatched metaOld (by decide) (by decide)
  refine ⟨?_, h.2⟩
  rw [h.1]
  decide

theorem mem_enumFrom_snd (l : List String) :
    ∀ (k : Nat) (x : String), x ∈ l →
      ∃ p : Nat × String, p ∈ l.enumFrom k ∧ p.2 = x := by
  induction l with
  | nil =>
    intro k x hx
    exact absurd hx (List.not_mem_nil x)
  | cons a l₂ ih =>
    intro k x hx
    rcases List.mem_cons.mp hx with rfl | hx₂
    · exact ⟨(k, x), by simp [List.enumFrom], rfl⟩
    · rcases ih (k + 1) x hx₂ with ⟨p, hp, hpx⟩
      exact ⟨p, by simp [List.enumFrom, hp], hpx⟩

/-- Claim C10: in the unpatch command, an empty restore result is surfaced
as an error and the command returns without restarting the server; a
non-empty result logs every restored file, reports the count, and restarts
the server exactly when the command is direct. -/
theorem c10_unpatch_command_reporting (isDirect : Bool) (w : World) :
    (unpatchCmd isDirect w).restarts
      = w.restarts + (if (restore_directory w.dir).2.isEmpty then 0
          else if isDirect then 1 else 0)
    ∧ ((restore_directory w.dir).2.isEmpty = true →
        (unpatchCmd isDirect w).log = w.log ++ [Msg.errorNoFileRestored])
    ∧ ((restore_directory w.dir).2.isEmpty = false →
        (∀ f ∈ (restore_directory w.dir).2, ∃ i,
          Msg.consoleRestored i (restore_directory w.dir).2.length f
            ∈ (unpatchCmd isDirect w).log)
        ∧ Msg.infoRestoredCount (restore_directory w.dir).2.length
            ∈ (unpatchCmd isDirect w).log) := by
  refine ⟨?_, ?_, ?_⟩
  · by_cases hemp : (restore_directory w.dir).2.isEmpty
    · simp [unpatchCmd, hemp]
    · cases isDirect <;> simp [unpatchCmd, hemp, restartServer]
  · intro hemp
    simp [unpatchCmd, hemp]
  · intro hemp
    have hlog : (unpatchCmd isDirect w).log
        = w.log ++ (restore_directory w.dir).2.enum.map
            (fun q => Msg.consoleRestored (q.1 + 1)
              (restore_directory w.dir).2.length q.2)
          ++ [Msg.infoRestoredCount (restore_directory w.dir).2.length] := by
      cases isDirect <;> simp [unpatchCmd, hemp, restartServer]
    constructor
    · intro f hf
      rcases mem_enumFrom_snd (restore_directory w.dir).2 0 f hf with ⟨p, hp, hpx⟩
      refine ⟨p.1 + 1, ?_⟩
      have hmem : Msg.consoleRestored (p.1 + 1) (restore_directory w.dir).2.length f
          ∈ (restore_directory w.dir).2.enum.map
            (fun q => Msg.consoleRestored (q.1 + 1)
              (restore_directory w.dir).2.length q.2) := by
        rw [← hpx]
        exact List.mem_map_of_mem _ hp
      rw [hlog]
      exact List.mem_append_left _ (List.mem_append_right _ hmem)
    · rw [hlog]
      exact List.mem_append_right _ (List.mem_cons_self _ _)

/-- Witness for claim C10: over the fixture directory with one backup the
direct unpatch command restarts once and logs the restored file; over the
backup-free directory it reports the error and does not restart. -/
theorem c10_unpatch_command_reporting_witness :
    ((unpatchCmd true (World.mk exDir6 0 [])).restarts = 0 + 1
      ∧ ∃ i, Msg.consoleRestored i 1 binPath ∈ (unpatchCmd true (World.mk exDir6 0 [])).log)
    ∧ ((unpatchCmd true world9).restarts = 0 + 0
      ∧ (unpatchCmd true world9).log = [] ++ [Msg.errorNoFileRestored]) := by
  have h₆ := c10_unpatch_command_reporting true (World.mk exDir6 0 [])
  have h₉ := c10_unpatch_command_reporting true world9
  refine ⟨⟨?_, ?_⟩, ?_, ?_⟩
  · rw [h₆.1]
    decide
  · rcases h₆.2.2 (by decide) with ⟨hall, -⟩
    rcases hall binPath (by decide) with ⟨i, hi⟩
    exact ⟨i, by
      have hlen : (restore_directory exDir6).2.length = 1 := by decide
      rw [hlen] at hi
      exact hi⟩
  · rw [h₉.1]
    decide
  · exact h₉.2.1 (by decide)
